import Mathlib

/-!
Shallow embedding of `double_entry/static/js/submit-transactions.js`
(the collect / submit / render helpers for transaction rows), together
with theorems checking the specification's claims about it.

The DOM fragment the script manipulates is modelled explicitly:
a `Row` is a transaction row element (its `id`, its attribute list and
its `.transaction-feedback` sub-element), a `Container` is a batch
container, and a document is a `List Row`.  JavaScript objects built by
`collectTransactions` are modelled as association lists with JS
assignment semantics (`setKey` overwrites in place).  A DOM access that
would throw a `TypeError` in the source (reading `.dataset` of
`undefined`) is modelled by `Except.error ()`.
-/

namespace DoubleEntry

/-- A DOM attribute (name/value pair).  The live DOM guarantees
`attr.specified = true` for every attribute in `element.attributes`, so
the source's `attr.specified` test is identically true and not modelled. -/
structure Attr where
  name : String
  value : String
deriving DecidableEq

/-- The `.transaction-feedback` sub-element of a row: its
`data-verdict` and `data-commit` dataset entries (a `dataset` entry is a
string when present, absent otherwise) and its `innerHTML`. -/
structure Feedback where
  verdict : Option String
  commit : Option String
  html : String
deriving DecidableEq

/-- A `.resolved-transaction` row element: its `id`, its full attribute
list, and its feedback sub-element. -/
structure Row where
  id : String
  attrs : List Attr
  feedback : Feedback
deriving DecidableEq

/-- A batch container element: its `data-pipeline-section-id` attribute
(as returned by jQuery `.attr`: a string or `undefined`) and its
`.resolved-transaction` descendant rows in DOM order. -/
structure Container where
  pipelineSectionId : Option String
  rows : List Row
deriving DecidableEq

/-- A JavaScript value stored in a submission record: the source stores
attribute values (strings) and the boolean `true` for `do_not_skip`. -/
inductive JVal where
  | str (s : String)
  | bool (b : Bool)
deriving DecidableEq

/-- A submission record: a JavaScript object, modelled as an association
list in insertion order. -/
abbrev Record := List (String × JVal)

/-- JS assignment `obj[k] = v`: overwrite the existing entry in place,
or append a new one. -/
def setKey : Record → String → JVal → Record
  | [], k, v => [(k, v)]
  | (k', v') :: rest, k, v =>
      if k' = k then (k, v) :: rest else (k', v') :: setKey rest k v

/-- JS property read `obj[k]`. -/
def getKey : Record → String → Option JVal
  | [], _ => none
  | (k', v') :: rest, k => if k' = k then some v' else getKey rest k

/-- JS truthiness of a `dataset` entry: `undefined` and the empty string
are falsy, every other string is truthy. -/
def truthyStr : Option String → Bool
  | none => false
  | some s => !(s == "")

/-- One character of the source's global hyphen-to-underscore replace. -/
def underscoreChar (c : Char) : Char := if c = '-' then '_' else c

/-- `attr.name.substring(5)` followed by the source's global
hyphen-to-underscore replace. -/
def paramName (n : String) : String :=
  String.mk ((n.toList.drop 5).map underscoreChar)

/-- `attr.name.startsWith('data-')` from the source. -/
def isDataName (n : String) : Bool := "data-".toList.isPrefixOf n.toList

/-- The body of the `$.each(this.attributes, ...)` loop in
`collectTransactions`. -/
def attrStep (acc : Record) (a : Attr) : Record :=
  if isDataName a.name then setKey acc (paramName a.name) (JVal.str a.value)
  else acc

/-- The `$.each(this.attributes, ...)` loop: copy every `data-*`
attribute into the record. -/
def addAttrs (row : Row) (rd : Record) : Record :=
  row.attrs.foldl attrStep rd

/-- `row_data` of `collectTransactions` just before the `do_not_skip`
check: `transaction_id` first, then `pipeline_section_id` when the
container attribute is defined (jQuery `.attr` never returns the
literal `false`, so only definedness is tested), then the copied
`data-*` attributes. -/
def preRecord (pipelineSectionId : Option String) (row : Row) : Record :=
  addAttrs row
    (match pipelineSectionId with
     | some p =>
         setKey [("transaction_id", JVal.str row.id)] "pipeline_section_id"
           (JVal.str p)
     | none => [("transaction_id", JVal.str row.id)])

/-- The record built for one included row by `collectTransactions`:
`preRecord`, and finally `do_not_skip = true` when the feedback verdict
differs from `commit`. -/
def mkRecord (pipelineSectionId : Option String) (row : Row) : Record :=
  if row.feedback.verdict ≠ some "commit" then
    setKey (preRecord pipelineSectionId row) "do_not_skip" (JVal.bool true)
  else preRecord pipelineSectionId row

/-- The `map` callback of `collectTransactions` for one row: rows whose
feedback `commit` dataset entry is falsy return `null` (dropped by
jQuery `.map`). -/
def collectRow (pipelineSectionId : Option String) (row : Row) :
    Option Record :=
  if truthyStr row.feedback.commit then some (mkRecord pipelineSectionId row)
  else none

/-- `collectTransactions(elementId)` on a container: map `collectRow`
over the rows in DOM order; jQuery `.map` drops the `null` results. -/
def collectTransactions (c : Container) : List Record :=
  c.rows.filterMap (collectRow c.pipelineSectionId)

/-- `markForCommit(feedbackElement, commit)`: refuse when the verdict is
absent or `discard`; otherwise set or delete the `commit` dataset entry.
Returns the updated feedback element and the function's return value. -/
def markForCommit (fb : Feedback) (commit : Bool) : Feedback × Bool :=
  match fb.verdict with
  | none => (fb, false)
  | some v =>
      if v = "discard" then (fb, false)
      else if commit then ({ fb with commit := some "true" }, true)
      else ({ fb with commit := none }, false)

/-- A server response entry `{transaction_id, errors, warnings, verdict,
committed}` (with `committed` defaulting to `false` at the call site). -/
structure Entry where
  transaction_id : String
  errors : List String
  warnings : List String
  verdict : Int
  committed : Bool
deriving DecidableEq

/-- `errors.map(err => "<li>" + err + "</li>").concat()` interpolated in
a template literal: the array is stringified with comma separators. -/
def liItems (xs : List String) : String :=
  String.intercalate "," (xs.map (fun e => "<li>" ++ e ++ "</li>"))

/-- The feedback `innerHTML` string built at the end of
`processResponse`. -/
def feedbackHtml (errors warnings : List String) : String :=
  let fb : String :=
    if errors.length ≠ 0 then
      "<ul class=\"transaction-errors\">" ++ liItems errors ++ "</ul><br/>"
    else ""
  if warnings.length ≠ 0 then
    fb ++ "<ul class=\"transaction-warnings\">" ++ liItems warnings ++ "</ul>"
  else fb

/-- The `switch(verdict)` of `processResponse` on the feedback dataset:
0 sets `verdict = commit` and `commit = true`; 1 sets
`verdict = suggest-skip` and deletes `commit`; 3 sets
`verdict = discard` and deletes `commit`; any other code falls through
unchanged. -/
def applyVerdict (verdict : Int) (fb : Feedback) : Feedback :=
  if verdict = 0 then { fb with verdict := some "commit", commit := some "true" }
  else if verdict = 1 then { fb with verdict := some "suggest-skip", commit := none }
  else if verdict = 3 then { fb with verdict := some "discard", commit := none }
  else fb

/-- The whole feedback update of the non-removal path of
`processResponse`: the verdict switch followed by the `innerHTML`
assignment. -/
def respondFb (e : Entry) (fb : Feedback) : Feedback :=
  { applyVerdict e.verdict fb with html := feedbackHtml e.errors e.warnings }

/-- `$('#id').remove()`: remove the (first) element with the given id;
removing an absent element is a no-op. -/
def removeFirstRow (id : String) : List Row → List Row
  | [] => []
  | r :: rest => if r.id = id then rest else r :: removeFirstRow id rest

/-- Update the (first) element with the given id in place. -/
def updateFirstRow (id : String) (f : Row → Row) : List Row → List Row
  | [] => []
  | r :: rest =>
      if r.id = id then f r :: rest else r :: updateFirstRow id f rest

/-- `document.getElementById` lookup underlying `$('#id')`. -/
def findRow (dom : List Row) (id : String) : Option Row :=
  dom.find? (fun r => r.id == id)

/-- Whether `$('#id')` selects an element. -/
def rowPresent (dom : List Row) (id : String) : Bool :=
  (findRow dom id).isSome

instance {ε α : Type} [DecidableEq ε] [DecidableEq α] :
    DecidableEq (Except ε α) := fun a b =>
  match a, b with
  | .ok x, .ok y =>
      if h : x = y then .isTrue (congrArg Except.ok h)
      else .isFalse (fun hxy => h (Except.ok.inj hxy))
  | .error x, .error y =>
      if h : x = y then .isTrue (congrArg Except.error h)
      else .isFalse (fun hxy => h (Except.error.inj hxy))
  | .ok _, .error _ => .isFalse (fun hxy => Except.noConfusion hxy)
  | .error _, .ok _ => .isFalse (fun hxy => Except.noConfusion hxy)

/-- The removal guard of `processResponse`:
`commitIntention && (committed || verdict > 0)`. -/
def removalCond (e : Entry) (commitIntention : Bool) : Bool :=
  commitIntention && (e.committed || decide (0 < e.verdict))

/-- `processResponse(entry, commitIntention)` on the document.  The
removal branch fires on `removalCond`; otherwise the feedback element is
updated — and when the row is absent, `elementFeedback` is `undefined`
and the dataset assignment throws a `TypeError`, modelled as
`Except.error ()`. -/
def processResponse (dom : List Row) (e : Entry) (commitIntention : Bool) :
    Except Unit (List Row) :=
  if removalCond e commitIntention then
    Except.ok (removeFirstRow e.transaction_id dom)
  else if rowPresent dom e.transaction_id then
    Except.ok (updateFirstRow e.transaction_id
      (fun r => { r with feedback := respondFb e r.feedback }) dom)
  else
    Except.error ()

/-- The request payload `{commit, transactions}` serialized by
`submitTransactions`. -/
structure Payload where
  commit : Bool
  transactions : List Record
deriving DecidableEq

/-- The server response body `{pipeline_responses}`. -/
structure Response where
  pipeline_responses : List Entry
deriving DecidableEq

/-- Pure model of one `submitTransactions` invocation: the payload it
POSTs, the argument list of the per-item `responseCallback` invocations
made by the `done` handler (in order, each with the commit flag actually
passed), and the argument of the `extraCallback` invocation when one was
provided. -/
structure SubmitModel where
  payload : Payload
  onEachCalls : Response → List (Entry × Bool)
  extraCall : Response → Option Response

/-- `submitTransactions(endpointUrl, elementIds, commit, responseCallback,
extraCallback)`: collect every container, flatten with
`[].concat.apply([], transactionLists)`, build the payload, and on a
successful response run `responseCallback(resp, commit)` for each entry
of `pipeline_responses` and then `extraCallback(response)` when not
`null`. -/
def submitTransactions (doc : String → Container) (elementIds : List String)
    (commit : Bool) (hasExtraCallback : Bool) : SubmitModel :=
  let transactionLists := elementIds.map (fun i => collectTransactions (doc i))
  let transactions := transactionLists.foldr (· ++ ·) []
  { payload := { commit := commit, transactions := transactions },
    onEachCalls := fun resp =>
      resp.pipeline_responses.map (fun e => (e, commit)),
    extraCall := fun resp => if hasExtraCallback then some resp else none }

/-- Feedback states reachable from the initial server-rendered markup
(no verdict, no commit mark, arbitrary initial inner HTML) by any
sequence of `markForCommit` calls and non-removal `processResponse`
updates. -/
inductive ReachableFb : Feedback → Prop where
  | init (h : String) : ReachableFb { verdict := none, commit := none, html := h }
  | mark (fb : Feedback) (b : Bool) :
      ReachableFb fb → ReachableFb (markForCommit fb b).1
  | respond (fb : Feedback) (e : Entry) :
      ReachableFb fb → ReachableFb (respondFb e fb)

/-! ## Concrete fixtures -/

/-- The fresh feedback state of a server-rendered row. -/
def fb0 : Feedback := { verdict := none, commit := none, html := "" }

/-- A feedback element the server has cleared for committing. -/
def fbCommitted : Feedback :=
  { verdict := some "commit", commit := some "true", html := "" }

/-- The row of the spec's collection scenario: id `t1`, one data
attribute `data-amount="50"`, feedback marked for commit with no verdict
yet. -/
def rowT1 : Row :=
  { id := "t1",
    attrs := [⟨"id", "t1"⟩, ⟨"class", "resolved-transaction"⟩,
      ⟨"data-amount", "50"⟩],
    feedback := { verdict := none, commit := none, html := "" } }

/-- `rowT1` after the user marked it for commit. -/
def rowT1C : Row :=
  { rowT1 with feedback := { verdict := none, commit := some "true", html := "" } }

/-- The container of the spec's collection scenario: no
`data-pipeline-section-id`, one row. -/
def containerB1 : Container := { pipelineSectionId := none, rows := [rowT1C] }

/-- A response entry reporting a committed transaction for row `t1`. -/
def eCommitted : Entry :=
  { transaction_id := "t1", errors := [], warnings := [], verdict := 0,
    committed := true }

/-- A response entry with the fatal verdict 3 for row `t1`. -/
def eDiscard : Entry :=
  { transaction_id := "t1", errors := [], warnings := [], verdict := 3,
    committed := false }

/-- A clean response entry (verdict 0, not yet committed) for row `t1`. -/
def eClean : Entry :=
  { transaction_id := "t1", errors := [], warnings := [], verdict := 0,
    committed := false }

/-- A response entry whose transaction id matches no element. -/
def eGhost : Entry :=
  { transaction_id := "ghost", errors := [], warnings := [], verdict := 0,
    committed := false }

/-- `rowT1C` after a clean verdict-0 response was rendered onto it. -/
def rowT1Clean : Row :=
  { rowT1 with feedback := fbCommitted }

/-! ## Association-list (JS object) lemmas -/

theorem getKey_setKey_same (r : Record) (k : String) (v : JVal) :
    getKey (setKey r k v) k = some v := by
  induction r with
  | nil => simp [setKey, getKey]
  | cons kv rest ih =>
      by_cases h : kv.1 = k
      · simp [setKey, getKey, h]
      · simpa [setKey, getKey, h] using ih

theorem getKey_setKey_other (r : Record) (k' k : String) (v : JVal)
    (h : k' ≠ k) : getKey (setKey r k' v) k = getKey r k := by
  induction r with
  | nil => simp [setKey, getKey, h]
  | cons kv rest ih =>
      by_cases h1 : kv.1 = k'
      · simp [setKey, getKey, h1, h]
      · simp [setKey, getKey, h1]
        by_cases h2 : kv.1 = k <;> simp [h2, ih]

theorem getKey_mem (r : Record) (k : String) (v : JVal)
    (h : getKey r k = some v) : (k, v) ∈ r := by
  induction r with
  | nil => simp [getKey] at h
  | cons kv rest ih =>
      obtain ⟨k0, v0⟩ := kv
      by_cases h1 : k0 = k
      · simp [getKey, h1] at h
        rw [← h1, ← h]
        exact List.mem_cons_self _ _
      · simp [getKey, h1] at h
        exact List.mem_cons_of_mem _ (ih h)

/-- All values stored in a record are strings (holds before the
`do_not_skip` step of `mkRecord`). -/
def strValued (r : Record) : Prop := ∀ kv ∈ r, ∃ s, kv.2 = JVal.str s

theorem strValued_setKey (r : Record) (k : String) (s : String)
    (h : strValued r) : strValued (setKey r k (JVal.str s)) := by
  induction r with
  | nil =>
      intro kv hkv
      simp [setKey] at hkv
      exact ⟨s, by rw [hkv]⟩
  | cons kv0 rest ih =>
      intro kv hkv
      by_cases h1 : kv0.1 = k
      · simp [setKey, h1] at hkv
        rcases hkv with hkv | hkv
        · exact ⟨s, by rw [hkv]⟩
        · exact h kv (List.mem_cons_of_mem kv0 hkv)
      · simp [setKey, h1] at hkv
        rcases hkv with hkv | hkv
        · exact h kv (by rw [hkv]; exact List.mem_cons_self kv0 rest)
        · exact ih (fun kv' hkv' => h kv' (List.mem_cons_of_mem kv0 hkv')) kv hkv

theorem strValued_attrStep (acc : Record) (a : Attr) (h : strValued acc) :
    strValued (attrStep acc a) := by
  unfold attrStep
  by_cases hd : isDataName a.name
  · simpa [hd] using strValued_setKey acc (paramName a.name) a.value h
  · simpa [hd] using h

theorem strValued_foldl :
    ∀ (l : List Attr) (acc : Record), strValued acc →
      strValued (l.foldl attrStep acc)
  | [], _, h => h
  | c :: rest, acc, h =>
      strValued_foldl rest (attrStep acc c) (strValued_attrStep acc c h)

/-! ## DOM lemmas -/

theorem rowPresent_iff_exists (dom : List Row) (id : String) :
    rowPresent dom id = true ↔ ∃ r ∈ dom, r.id = id := by
  simp [rowPresent, findRow, List.find?_isSome]

theorem findRow_eq_none_iff (dom : List Row) (id : String) :
    findRow dom id = none ↔ ∀ r ∈ dom, r.id ≠ id := by
  simp [findRow, List.find?_eq_none]

theorem removeFirstRow_of_absent (id : String) :
    ∀ dom : List Row, (∀ r ∈ dom, r.id ≠ id) → removeFirstRow id dom = dom
  | [], _ => rfl
  | r :: rest, h => by
      have hr : r.id ≠ id := h r (List.mem_cons_self r rest)
      simp [removeFirstRow, hr,
        removeFirstRow_of_absent id rest
          (fun r' hr' => h r' (List.mem_cons_of_mem r hr'))]

theorem findRow_removeFirstRow (id : String) :
    ∀ dom : List Row, (dom.map Row.id).Nodup →
      findRow (removeFirstRow id dom) id = none
  | [], _ => rfl
  | r :: rest, hnd => by
      rw [List.map_cons] at hnd
      have hnd' : (rest.map Row.id).Nodup := (List.nodup_cons.mp hnd).2
      by_cases hr : r.id = id
      · have hnotin : r.id ∉ rest.map Row.id := (List.nodup_cons.mp hnd).1
        rw [removeFirstRow, if_pos hr, findRow_eq_none_iff]
        intro r' hr' he
        exact hnotin (by rw [hr, ← he]; exact List.mem_map_of_mem Row.id hr')
      · rw [removeFirstRow, if_neg hr, findRow, List.find?_cons_of_neg,
          ← findRow]
        · exact findRow_removeFirstRow id rest hnd'
        · simpa using hr

theorem updateFirstRow_map_id (id : String) (f : Row → Row)
    (hf : ∀ r, (f r).id = r.id) :
    ∀ dom : List Row, (updateFirstRow id f dom).map Row.id = dom.map Row.id
  | [] => rfl
  | r :: rest => by
      by_cases hr : r.id = id <;>
        simp [updateFirstRow, hr, hf, updateFirstRow_map_id id f hf rest]

theorem rowPresent_of_map_id_eq (dom dom' : List Row) (id : String)
    (h : dom.map Row.id = dom'.map Row.id) :
    rowPresent dom id = rowPresent dom' id := by
  by_cases hp : rowPresent dom' id = true
  · rw [hp, rowPresent_iff_exists]
    obtain ⟨r, hr, he⟩ := (rowPresent_iff_exists dom' id).mp hp
    have : id ∈ dom.map Row.id := by
      rw [h]
      exact he ▸ List.mem_map_of_mem Row.id hr
    obtain ⟨r', hr', he'⟩ := List.mem_map.mp this
    exact ⟨r', hr', he'⟩
  · rw [eq_false_of_ne_true hp, ← Bool.not_eq_true]
    intro hc
    obtain ⟨r, hr, he⟩ := (rowPresent_iff_exists dom id).mp hc
    have : id ∈ dom'.map Row.id := by
      rw [← h]
      exact he ▸ List.mem_map_of_mem Row.id hr
    obtain ⟨r', hr', he'⟩ := List.mem_map.mp this
    exact hp ((rowPresent_iff_exists dom' id).mpr ⟨r', hr', he'⟩)

theorem processResponse_removal (dom : List Row) (e : Entry) (ci : Bool)
    (h : removalCond e ci = true) :
    processResponse dom e ci = Except.ok (removeFirstRow e.transaction_id dom) := by
  simp [processResponse, h]

theorem processResponse_update (dom : List Row) (e : Entry) (ci : Bool)
    (h : removalCond e ci = false)
    (hp : rowPresent dom e.transaction_id = true) :
    processResponse dom e ci = Except.ok (updateFirstRow e.transaction_id
      (fun r => { r with feedback := respondFb e r.feedback }) dom) := by
  simp [processResponse, h, hp]

theorem processResponse_crash (dom : List Row) (e : Entry) (ci : Bool)
    (h : removalCond e ci = false)
    (hp : rowPresent dom e.transaction_id = false) :
    processResponse dom e ci = Except.error () := by
  simp [processResponse, h, hp]

theorem findRow_updateFirstRow (id : String) (f : Row → Row)
    (hf : ∀ r, (f r).id = r.id) :
    ∀ dom : List Row,
      findRow (updateFirstRow id f dom) id = (findRow dom id).map f
  | [] => rfl
  | r :: rest => by
      by_cases hr : r.id = id
      · rw [updateFirstRow, if_pos hr, findRow, List.find?_cons_of_pos,
          findRow, List.find?_cons_of_pos]
        · simp
        · simpa using hr
        · simpa using (hf r).trans hr
      · rw [updateFirstRow, if_neg hr, findRow, List.find?_cons_of_neg,
          findRow, List.find?_cons_of_neg, ← findRow, ← findRow]
        · exact findRow_updateFirstRow id f hf rest
        · simpa using hr
        · simpa using hr

/-! ## Attribute-name mapping lemmas -/

theorem underscoreChar_inj {a b : Char} (ha : a ≠ '_') (hb : b ≠ '_')
    (h : underscoreChar a = underscoreChar b) : a = b := by
  by_cases h1 : a = '-' <;> by_cases h2 : b = '-'
  · rw [h1, h2]
  · rw [underscoreChar, if_pos h1, underscoreChar, if_neg h2] at h
    exact absurd h.symm hb
  · rw [underscoreChar, if_neg h1, underscoreChar, if_pos h2] at h
    exact absurd h ha
  · rwa [underscoreChar, if_neg h1, underscoreChar, if_neg h2] at h

theorem map_underscoreChar_inj :
    ∀ {l₁ l₂ : List Char}, '_' ∉ l₁ → '_' ∉ l₂ →
      l₁.map underscoreChar = l₂.map underscoreChar → l₁ = l₂
  | [], [], _, _, _ => rfl
  | [], _ :: _, _, _, h => by simp at h
  | _ :: _, [], _, _, h => by simp at h
  | a :: l₁, b :: l₂, h₁, h₂, h => by
      rw [List.map_cons, List.map_cons, List.cons.injEq] at h
      have ha : a ≠ '_' := fun hc => h₁ (hc ▸ List.mem_cons_self a l₁)
      have hb : b ≠ '_' := fun hc => h₂ (hc ▸ List.mem_cons_self b l₂)
      rw [List.cons.injEq]
      exact ⟨underscoreChar_inj ha hb h.1,
        map_underscoreChar_inj (fun hc => h₁ (List.mem_cons_of_mem a hc))
          (fun hc => h₂ (List.mem_cons_of_mem b hc)) h.2⟩

theorem toList_of_isDataName (n : String) (h : isDataName n = true) :
    n.toList = "data-".toList ++ n.toList.drop 5 := by
  rw [isDataName, List.isPrefixOf_iff_prefix] at h
  obtain ⟨t, ht⟩ := h
  have hd : n.toList.drop 5 = t := by
    rw [← ht, show (5 : Nat) = ("data-".toList).length from rfl,
      List.drop_left]
  rw [hd, ht]

theorem paramName_inj (m n : String)
    (hm : isDataName m = true) (hn : isDataName n = true)
    (hum : '_' ∉ m.toList) (hun : '_' ∉ n.toList)
    (h : paramName m = paramName n) : m = n := by
  rw [paramName, paramName] at h
  injection h with h
  have hdm : '_' ∉ m.toList.drop 5 := fun hc => hum (List.mem_of_mem_drop hc)
  have hdn : '_' ∉ n.toList.drop 5 := fun hc => hun (List.mem_of_mem_drop hc)
  have hdrop : m.toList.drop 5 = n.toList.drop 5 :=
    map_underscoreChar_inj hdm hdn h
  apply String.ext
  have : m.toList = n.toList := by
    rw [toList_of_isDataName m hm, toList_of_isDataName n hn, hdrop]
  exact this

theorem getKey_foldl_attrStep_frame (k : String) :
    ∀ (l : List Attr) (acc : Record),
      (∀ b ∈ l, isDataName b.name = true → paramName b.name ≠ k) →
      getKey (l.foldl attrStep acc) k = getKey acc k
  | [], _, _ => rfl
  | c :: rest, acc, h => by
      have hstep : getKey (attrStep acc c) k = getKey acc k := by
        unfold attrStep
        by_cases hd : isDataName c.name
        · rw [if_pos hd]
          exact getKey_setKey_other acc (paramName c.name) k (JVal.str c.value)
            (h c (List.mem_cons_self c rest) hd)
        · rw [if_neg hd]
      rw [List.foldl_cons,
        getKey_foldl_attrStep_frame k rest (attrStep acc c)
          (fun b hb => h b (List.mem_cons_of_mem c hb)), hstep]

theorem getKey_foldl_attrStep (a : Attr) :
    ∀ (l : List Attr) (acc : Record), a ∈ l → isDataName a.name = true →
      (∀ b ∈ l, isDataName b.name = true →
        paramName b.name = paramName a.name → b = a) →
      getKey (l.foldl attrStep acc) (paramName a.name) = some (JVal.str a.value)
  | [], _, ha, _, _ => absurd ha (List.not_mem_nil a)
  | c :: rest, acc, ha, hd, hsame => by
      rw [List.foldl_cons]
      by_cases hmem : a ∈ rest
      · exact getKey_foldl_attrStep a rest (attrStep acc c) hmem hd
          (fun b hb h1 h2 => hsame b (List.mem_cons_of_mem c hb) h1 h2)
      · have hac : c = a := by
          rcases List.mem_cons.mp ha with h | h
          · exact h.symm
          · exact absurd h hmem
      -- the head is the unique occurrence of `a`
        have hrest : ∀ b ∈ rest, isDataName b.name = true →
            paramName b.name ≠ paramName a.name := by
          intro b hb h1 h2
          exact hmem ((hsame b (List.mem_cons_of_mem c hb) h1 h2) ▸ hb)
        rw [getKey_foldl_attrStep_frame (paramName a.name) rest
          (attrStep acc c) hrest, hac, attrStep, if_pos hd]
        exact getKey_setKey_same acc (paramName a.name) (JVal.str a.value)

theorem strValued_preRecord (p : Option String) (row : Row) :
    strValued (preRecord p row) := by
  apply strValued_foldl
  cases p with
  | none =>
      intro kv hkv
      simp at hkv
      exact ⟨row.id, by rw [hkv]⟩
  | some q =>
      apply strValued_setKey
      intro kv hkv
      simp at hkv
      exact ⟨row.id, by rw [hkv]⟩

theorem foldr_append_eq_flatten (l : List (List Record)) :
    l.foldr (· ++ ·) [] = l.flatten := by
  induction l with
  | nil => rfl
  | cons a l ih => simp [List.flatten_cons, ih]

theorem filterMap_collectRow (p : Option String) :
    ∀ l : List Row,
      l.filterMap (collectRow p)
        = (l.filter (fun r => truthyStr r.feedback.commit)).map (mkRecord p)
  | [] => rfl
  | r :: rest => by
      by_cases h : truthyStr r.feedback.commit = true
      · simp [List.filterMap_cons, List.filter_cons, h, collectRow,
          filterMap_collectRow p rest]
      · rw [Bool.not_eq_true] at h
        simp [List.filterMap_cons, List.filter_cons, h, collectRow,
          filterMap_collectRow p rest]

/-! ## Reachability helpers -/

theorem markForCommit_refuses (fb : Feedback)
    (hv : fb.verdict = none ∨ fb.verdict = some "discard") (b : Bool) :
    markForCommit fb b = (fb, false) := by
  rcases hv with hv | hv <;> simp [markForCommit, hv]

theorem reachable_discard_commit (fb : Feedback) (h : ReachableFb fb) :
    fb.verdict = some "discard" → fb.commit = none := by
  induction h with
  | init h => intro hv; simp at hv
  | mark fb b _ ih =>
      rcases hfv : fb.verdict with _ | v
      · simp only [markForCommit, hfv]
        intro hc
        simp at hc
      · by_cases hd : v = "discard"
        · simp only [markForCommit, hfv, if_pos hd]
          intro _
          exact ih (by rw [hfv, hd])
        · by_cases hb : b
          · simp only [markForCommit, hfv, if_neg hd, hb, if_pos]
            intro hc
            exact absurd (Option.some.inj hc) hd
          · simp only [markForCommit, hfv, if_neg hd, hb]
            intro
            trivial
  | respond fb e _ ih =>
      simp only [respondFb, applyVerdict]
      by_cases h0 : e.verdict = 0
      · simp only [if_pos h0]
        intro hc
        simp at hc
      · simp only [if_neg h0]
        by_cases h1 : e.verdict = 1
        · simp only [if_pos h1]
          intro
          trivial
        · simp only [if_neg h1]
          by_cases h3 : e.verdict = 3
          · simp only [if_pos h3]
            intro
            trivial
          · simp only [if_neg h3]
            exact ih

/-! ## More fixtures -/

/-- `rowT1C` after a verdict-3 response was rendered onto it. -/
def rowT1D : Row :=
  { rowT1 with
    feedback := { verdict := some "discard", commit := none, html := "" } }

/-- A commit-marked row with no verdict from the server yet. -/
def rowNoVerdict : Row :=
  { id := "t2", attrs := [],
    feedback := { verdict := none, commit := some "true", html := "" } }

/-- A commit-marked row whose verdict is already `commit`. -/
def rowVC : Row := { id := "t3", attrs := [], feedback := fbCommitted }

/-- A row that is not marked for commit. -/
def rowNC : Row := { id := "t4", attrs := [], feedback := fb0 }

/-- A container holding one commit-marked and one unmarked row. -/
def containerC6 : Container :=
  { pipelineSectionId := none, rows := [rowT1C, rowNC] }

/-- A row with two distinct attribute names that collide after the
hyphen-to-underscore replacement. -/
def rowC8 : Row :=
  { id := "t9", attrs := [⟨"data-a-b", "1"⟩, ⟨"data-a_b", "2"⟩],
    feedback := fbCommitted }

/-- A commit-marked row (no verdict yet) whose single data attribute
maps to the key `do_not_skip`. -/
def rowC8b : Row :=
  { id := "t10", attrs := [⟨"data-do-not-skip", "yes"⟩],
    feedback := { verdict := none, commit := some "true", html := "" } }

/-- A row with one well-behaved data attribute. -/
def rowW8 : Row :=
  { id := "t5", attrs := [⟨"data-amount", "50"⟩], feedback := fbCommitted }

/-- A document resolving every container id to `containerB1`. -/
def docB1 : String → Container := fun _ => containerB1

/-- A one-entry server response. -/
def respT1 : Response := { pipeline_responses := [eCommitted] }

/-! ## Claim theorems -/

/-- Claim C1, counterexample: the entry for row `t1` has
`committed = true`, yet with commit-intent `false` the call to
`processResponse` leaves the row in the DOM (it takes the feedback-update
path), contradicting the claim that `committed = true` causes removal
even when the commit-intent flag is false. -/
theorem c1_cex :
    eCommitted.committed = true ∧
    rowPresent ((processResponse [rowT1C] eCommitted false).toOption.getD [])
      eCommitted.transaction_id = true := by decide

/-- Claim C1, as amended: on a document with distinct row ids containing
the addressed row, `processResponse` removes the row (and performs no
further update) if and only if the commit-intent flag is true AND
(`committed` is true or `verdict > 0`); the removal branch returns
exactly the document with that row deleted. -/
theorem c1_removal_iff (dom : List Row) (e : Entry) (ci : Bool)
    (hnd : (dom.map Row.id).Nodup)
    (hp : rowPresent dom e.transaction_id = true) :
    ((∃ dom', processResponse dom e ci = Except.ok dom' ∧
        rowPresent dom' e.transaction_id = false) ↔ removalCond e ci = true) ∧
    (removalCond e ci = true →
      processResponse dom e ci
        = Except.ok (removeFirstRow e.transaction_id dom)) := by
  constructor
  · constructor
    · rintro ⟨dom', hok, habs⟩
      by_contra hc
      have hcf : removalCond e ci = false := by
        revert hc
        cases removalCond e ci <;> simp
      rw [processResponse_update dom e ci hcf hp] at hok
      have hd := Except.ok.inj hok
      rw [← hd] at habs
      have hmap := updateFirstRow_map_id e.transaction_id
        (fun r => { r with feedback := respondFb e r.feedback })
        (fun _ => rfl) dom
      rw [rowPresent_of_map_id_eq _ dom _ hmap, hp] at habs
      exact absurd habs (by simp)
    · intro h
      refine ⟨removeFirstRow e.transaction_id dom,
        processResponse_removal dom e ci h, ?_⟩
      rw [rowPresent, findRow_removeFirstRow e.transaction_id dom hnd]
      rfl
  · exact processResponse_removal dom e ci

/-- Claim C1, witness: with commit-intent true and `committed = true`,
the row is removed. -/
theorem c1_witness :
    processResponse [rowT1C] eCommitted true
      = Except.ok (removeFirstRow eCommitted.transaction_id [rowT1C]) :=
  (c1_removal_iff [rowT1C] eCommitted true (by decide) (by decide)).2
    (by decide)

/-- Claim C2, counterexample: a verdict-3 entry with `committed = false`
processed with commit-intent `false` does NOT remove the row,
contradicting the claim that verdict 3 removes for both values of the
commit-intent flag. -/
theorem c2_cex :
    eDiscard.verdict = 3 ∧ eDiscard.committed = false ∧
    rowPresent ((processResponse [rowT1C] eDiscard false).toOption.getD [])
      eDiscard.transaction_id = true := by decide

/-- Claim C2, as amended: a verdict-3 entry (with `committed = false`)
removes the addressed row only when the commit-intent flag is true; with
the flag false the row stays and its feedback is set to verdict
`discard` with the commit mark cleared. -/
theorem c2_discard (dom : List Row) (e : Entry) (dom' : List Row)
    (h3 : e.verdict = 3) (_hcf : e.committed = false)
    (hp : rowPresent dom e.transaction_id = true)
    (hok : processResponse dom e false = Except.ok dom') :
    processResponse dom e true
      = Except.ok (removeFirstRow e.transaction_id dom) ∧
    (findRow dom' e.transaction_id).map
      (fun r => (r.feedback.verdict, r.feedback.commit))
      = some (some "discard", none) := by
  have hct : removalCond e true = true := by
    simp [removalCond, h3]
  have hcff : removalCond e false = false := by
    simp [removalCond]
  constructor
  · exact processResponse_removal dom e true hct
  · rw [processResponse_update dom e false hcff hp] at hok
    have hd := Except.ok.inj hok
    rw [← hd, findRow_updateFirstRow e.transaction_id
      (fun r => { r with feedback := respondFb e r.feedback })
      (fun _ => rfl) dom]
    rw [rowPresent] at hp
    obtain ⟨r, hr⟩ := Option.isSome_iff_exists.mp hp
    rw [hr]
    simp [respondFb, applyVerdict, h3]

/-- Claim C2, witness: with commit-intent true a verdict-3 entry removes
the row; with commit-intent false the row's feedback becomes `discard`
with the commit mark cleared. -/
theorem c2_witness :
    processResponse [rowT1C] eDiscard true
      = Except.ok (removeFirstRow eDiscard.transaction_id [rowT1C]) ∧
    (findRow [rowT1D] eDiscard.transaction_id).map
      (fun r => (r.feedback.verdict, r.feedback.commit))
      = some (some "discard", none) :=
  c2_discard [rowT1C] eDiscard [rowT1D] rfl rfl (by decide) (by decide)

/-- Claim C3, counterexample: a collected row whose feedback has the
commit mark but NO verdict attribute still gets `do_not_skip = true` in
its record, contradicting the claim that `do_not_skip` requires the
verdict attribute to be present. -/
theorem c3_cex :
    rowNoVerdict.feedback.verdict = none ∧
    truthyStr rowNoVerdict.feedback.commit = true ∧
    getKey ((collectRow none rowNoVerdict).getD []) "do_not_skip"
      = some (JVal.bool true) := by decide

/-- Claim C3, as amended: for every row included by the collector, the
record carries `do_not_skip = true` if and only if the row's feedback
verdict attribute is not equal to `commit` — an absent verdict also
yields `do_not_skip`. -/
theorem c3_do_not_skip_iff (p : Option String) (row : Row) (rec : Record)
    (h : collectRow p row = some rec) :
    getKey rec "do_not_skip" = some (JVal.bool true) ↔
      row.feedback.verdict ≠ some "commit" := by
  rw [collectRow] at h
  by_cases hc : truthyStr row.feedback.commit = true
  · rw [if_pos hc] at h
    have hrec := (Option.some.inj h).symm
    subst hrec
    by_cases hv : row.feedback.verdict = some "commit"
    · rw [mkRecord, if_neg (fun hne => hne hv)]
      constructor
      · intro hk
        obtain ⟨s, hs⟩ := strValued_preRecord p row _ (getKey_mem _ _ _ hk)
        exact absurd hs (by simp)
      · intro hne
        exact absurd hv hne
    · rw [mkRecord, if_pos hv,
        getKey_setKey_same (preRecord p row) "do_not_skip" (JVal.bool true)]
      simp [hv]
  · rw [if_neg hc] at h
    exact absurd h (by simp)

/-- Claim C3, witness: a row whose verdict is `commit` yields a record
without `do_not_skip`. -/
theorem c3_witness :
    getKey [("transaction_id", JVal.str "t3")] "do_not_skip"
      = some (JVal.bool true) ↔ rowVC.feedback.verdict ≠ some "commit" :=
  c3_do_not_skip_iff none rowVC [("transaction_id", JVal.str "t3")]
    (by decide)

/-- Claim C4, counterexample: on the spec's scenario container the
collector's only record contains a `do_not_skip` entry, so the output is
not the claimed two-key record. -/
theorem c4_cex :
    collectTransactions containerB1 ≠
      [[("transaction_id", JVal.str "t1"), ("amount", JVal.str "50")]] ∧
    getKey ((collectTransactions containerB1).headD []) "do_not_skip"
      = some (JVal.bool true) := by decide

/-- Claim C4, as amended: on a container with the pipeline-section-id
attribute unset, one resolved row `t1` with feedback `commit = true` and
no verdict, and single data attribute `data-amount="50"`, the collector
returns exactly one record with keys `transaction_id`, `amount` and
`do_not_skip` (the verdict attribute is absent, hence differs from
`commit`, so `do_not_skip = true` is added). -/
theorem c4_scenario :
    collectTransactions containerB1 =
      [[("transaction_id", JVal.str "t1"), ("amount", JVal.str "50"),
        ("do_not_skip", JVal.bool true)]] := by decide

/-- Claim C5: `submitTransactions` posts one payload whose `commit`
field is the given flag and whose `transactions` are the concatenation
of the per-container collector results in order; on success it invokes
the per-item callback once per entry of `pipeline_responses` in order,
each time with the same commit flag, and invokes the extra callback on
the whole response exactly when one was provided. -/
theorem c5_submit (doc : String → Container) (ids : List String)
    (commit hasExtra : Bool) (resp : Response) :
    (submitTransactions doc ids commit hasExtra).payload.commit = commit ∧
    (submitTransactions doc ids commit hasExtra).payload.transactions
      = (ids.map (fun i => collectTransactions (doc i))).flatten ∧
    (submitTransactions doc ids commit hasExtra).onEachCalls resp
      = resp.pipeline_responses.map (fun e => (e, commit)) ∧
    (hasExtra = true →
      (submitTransactions doc ids commit hasExtra).extraCall resp
        = some resp) ∧
    (hasExtra = false →
      (submitTransactions doc ids commit hasExtra).extraCall resp = none) := by
  refine ⟨rfl, ?_, rfl, ?_, ?_⟩
  · exact foldr_append_eq_flatten (ids.map (fun i => collectTransactions (doc i)))
  · intro h
    simp [submitTransactions, h]
  · intro h
    simp [submitTransactions, h]

/-- Claim C5, witness: a concrete submission with an extra callback. -/
theorem c5_witness :
    (submitTransactions docB1 ["batch1"] true true).extraCall respT1
      = some respT1 ∧
    (submitTransactions docB1 ["batch1"] true true).payload.transactions
      = (["batch1"].map (fun i => collectTransactions (docB1 i))).flatten :=
  ⟨(c5_submit docB1 ["batch1"] true true respT1).2.2.2.1 rfl,
   (c5_submit docB1 ["batch1"] true true respT1).2.1⟩

/-- Claim C6: the collector's output is exactly one record per
commit-marked row in DOM order; rows whose feedback `commit` entry is
not truthy contribute nothing. -/
theorem c6_commit_filter (c : Container) :
    collectTransactions c
      = (c.rows.filter (fun r => truthyStr r.feedback.commit)).map
          (mkRecord c.pipelineSectionId) ∧
    ∀ r ∈ c.rows, truthyStr r.feedback.commit = false →
      collectRow c.pipelineSectionId r = none := by
  constructor
  · exact filterMap_collectRow c.pipelineSectionId c.rows
  · intro r _ hf
    simp [collectRow, hf]

/-- Claim C6, witness: on a container with one marked and one unmarked
row, the unmarked row contributes nothing. -/
theorem c6_witness :
    collectRow containerC6.pipelineSectionId rowNC = none ∧
    collectTransactions containerC6
      = (containerC6.rows.filter (fun r => truthyStr r.feedback.commit)).map
          (mkRecord containerC6.pipelineSectionId) :=
  ⟨(c6_commit_filter containerC6).2 rowNC (by decide) rfl,
   (c6_commit_filter containerC6).1⟩

/-- Claim C7: when the removal condition does not fire and the row is
present, `processResponse` succeeds and sets the feedback verdict
attribute to `commit` / `suggest-skip` / `discard` for codes 0 / 1 / 3,
with the commit flag set (to the string true) exactly for code 0 and
cleared for codes 1 and 3. -/
theorem c7_verdict_render (dom : List Row) (e : Entry) (ci : Bool)
    (dom' : List Row)
    (hp : rowPresent dom e.transaction_id = true)
    (hnr : removalCond e ci = false)
    (hok : processResponse dom e ci = Except.ok dom') :
    (e.verdict = 0 → (findRow dom' e.transaction_id).map
        (fun r => (r.feedback.verdict, r.feedback.commit))
        = some (some "commit", some "true")) ∧
    (e.verdict = 1 → (findRow dom' e.transaction_id).map
        (fun r => (r.feedback.verdict, r.feedback.commit))
        = some (some "suggest-skip", none)) ∧
    (e.verdict = 3 → (findRow dom' e.transaction_id).map
        (fun r => (r.feedback.verdict, r.feedback.commit))
        = some (some "discard", none)) := by
  rw [processResponse_update dom e ci hnr hp] at hok
  have hd := Except.ok.inj hok
  rw [← hd]
  rw [rowPresent] at hp
  obtain ⟨r, hr⟩ := Option.isSome_iff_exists.mp hp
  refine ⟨?_, ?_, ?_⟩ <;> intro hv <;>
    rw [findRow_updateFirstRow e.transaction_id
      (fun r => { r with feedback := respondFb e r.feedback })
      (fun _ => rfl) dom, hr] <;>
    simp [respondFb, applyVerdict, hv]

/-- Claim C7, witness: verdict 0 with commit-intent true does not remove
the row and leaves it with `commit = true` and `verdict = commit`. -/
theorem c7_witness :
    (findRow [rowT1Clean] eClean.transaction_id).map
      (fun r => (r.feedback.verdict, r.feedback.commit))
      = some (some "commit", some "true") :=
  (c7_verdict_render [rowT1C] eClean true [rowT1Clean] (by decide)
    (by decide) (by decide)).1 rfl

/-- Claim C8, counterexample, two failure modes of reversibility: the
distinct attribute names `data-a-b` and `data-a_b` map to the same
record key `a_b` (the first value is lost), and even with
underscore-free, distinct names the copied value of `data-do-not-skip`
on a not-yet-`commit` row is clobbered to the boolean `true` by the
final `do_not_skip` step. -/
theorem c8_cex :
    (paramName "data-a-b" = paramName "data-a_b" ∧
     "data-a-b" ≠ "data-a_b" ∧
     mkRecord none rowC8
       = [("transaction_id", JVal.str "t9"), ("a_b", JVal.str "2")]) ∧
    (rowC8b.feedback.verdict ≠ some "commit" ∧
     getKey (mkRecord none rowC8b) (paramName "data-do-not-skip")
       = some (JVal.bool true)) := by
  decide

/-- Claim C8, as amended: every `data-` attribute is copied with its
value verbatim under the key obtained by dropping `data-` and replacing
hyphens with underscores — exactly so into the record as it stands
before the `do_not_skip` step; when no attribute name of the row
contains an underscore (names being distinct, as the DOM guarantees),
the name-to-key mapping is injective, and each data attribute's value
is also found under its key in the final record unless that key is
`do_not_skip` on a row whose verdict differs from `commit`, where the
final step overwrites it with the boolean `true`. -/
theorem c8_mapping (p : Option String) (row : Row)
    (hnd : (row.attrs.map Attr.name).Nodup)
    (hu : ∀ a ∈ row.attrs, '_' ∉ a.name.toList) :
    (∀ a ∈ row.attrs, ∀ b ∈ row.attrs, isDataName a.name = true →
      isDataName b.name = true → paramName a.name = paramName b.name →
      a.name = b.name) ∧
    (∀ a ∈ row.attrs, isDataName a.name = true →
      getKey (preRecord p row) (paramName a.name)
        = some (JVal.str a.value)) ∧
    (∀ a ∈ row.attrs, isDataName a.name = true →
      (row.feedback.verdict = some "commit" ∨
        paramName a.name ≠ "do_not_skip") →
      getKey (mkRecord p row) (paramName a.name)
        = some (JVal.str a.value)) := by
  have hinj : ∀ a ∈ row.attrs, ∀ b ∈ row.attrs, isDataName a.name = true →
      isDataName b.name = true → paramName a.name = paramName b.name →
      a.name = b.name := by
    intro a ha b hb hda hdb hpn
    exact paramName_inj a.name b.name hda hdb (hu a ha) (hu b hb) hpn
  have hpre : ∀ a ∈ row.attrs, isDataName a.name = true →
      getKey (preRecord p row) (paramName a.name)
        = some (JVal.str a.value) := by
    intro a ha hda
    apply getKey_foldl_attrStep a row.attrs _ ha hda
    intro b hb hdb hpn
    have hname := hinj b hb a ha hdb hda hpn
    exact List.inj_on_of_nodup_map hnd hb ha hname
  refine ⟨hinj, hpre, ?_⟩
  intro a ha hda hg
  rw [mkRecord]
  by_cases hv : row.feedback.verdict = some "commit"
  · rw [if_neg (fun hne => hne hv)]
    exact hpre a ha hda
  · rw [if_pos hv]
    rcases hg with hg | hg
    · exact absurd hg hv
    · rw [getKey_setKey_other (preRecord p row) "do_not_skip"
        (paramName a.name) (JVal.bool true) (fun he => hg he.symm)]
      exact hpre a ha hda

/-- Claim C8, witness: a well-behaved data attribute is copied under its
underscored key, both before the `do_not_skip` step and in the final
record. -/
theorem c8_witness :
    getKey (preRecord none rowW8) (paramName "data-amount")
      = some (JVal.str "50") ∧
    getKey (mkRecord none rowW8) (paramName "data-amount")
      = some (JVal.str "50") :=
  ⟨(c8_mapping none rowW8 (by decide) (by decide)).2.1
    ⟨"data-amount", "50"⟩ (by decide) (by decide),
   (c8_mapping none rowW8 (by decide) (by decide)).2.2
    ⟨"data-amount", "50"⟩ (by decide) (by decide) (Or.inl rfl)⟩

/-- Claim C9: in every feedback state reachable by `markForCommit` and
`processResponse` updates from the initial server-rendered state, the
verdict `discard` never coexists with a set commit flag; and
`markForCommit(fb, true)` returns the state unchanged with result
`false` whenever the verdict is `discard` or absent. -/
theorem c9_discard_terminal (fb : Feedback) (h : ReachableFb fb) :
    ¬(fb.verdict = some "discard" ∧ fb.commit ≠ none) ∧
    ((fb.verdict = none ∨ fb.verdict = some "discard") →
      markForCommit fb true = (fb, false)) :=
  ⟨fun hc => hc.2 (reachable_discard_commit fb h hc.1),
   fun hv => markForCommit_refuses fb hv true⟩

/-- Claim C9, witness: the invariant at the initial feedback state. -/
theorem c9_witness :
    ¬(fb0.verdict = some "discard" ∧ fb0.commit ≠ none) ∧
    ((fb0.verdict = none ∨ fb0.verdict = some "discard") →
      markForCommit fb0 true = (fb0, false)) :=
  c9_discard_terminal fb0 (ReachableFb.init "")

/-- Claim C10, counterexample: a response entry addressing no element,
processed with commit-intent false (removal condition not firing),
crashes with a `TypeError` instead of being a harmless no-op. -/
theorem c10_cex :
    rowPresent [] eGhost.transaction_id = false ∧
    processResponse [] eGhost false = Except.error () := by decide

/-- Claim C10, as amended: on an entry whose transaction id matches no
element, `processResponse` is a harmless no-op exactly when the removal
condition fires (removal of an absent element is idempotent); on the
feedback-update path it throws (reads `.dataset` of `undefined`). -/
theorem c10_absent (dom : List Row) (e : Entry) (ci : Bool)
    (habs : rowPresent dom e.transaction_id = false) :
    (removalCond e ci = true → processResponse dom e ci = Except.ok dom) ∧
    (removalCond e ci = false →
      processResponse dom e ci = Except.error ()) := by
  have hall : ∀ r ∈ dom, r.id ≠ e.transaction_id := by
    intro r hr he
    have hmem := (rowPresent_iff_exists dom e.transaction_id).mpr ⟨r, hr, he⟩
    rw [habs] at hmem
    exact absurd hmem (by simp)
  constructor
  · intro h
    rw [processResponse_removal dom e ci h,
      removeFirstRow_of_absent e.transaction_id dom hall]
  · intro h
    exact processResponse_crash dom e ci h habs

/-- Claim C10, witness: with the removal condition firing, processing an
entry for an absent row leaves the document unchanged. -/
theorem c10_witness : processResponse [] eCommitted true = Except.ok [] :=
  (c10_absent [] eCommitted true (by decide)).1 (by decide)

end DoubleEntry
